import Mathlib

/-!
Verification of the RocksDB NIF wrapper (`src/native/rocksdb_nif/src/lib.rs`)
backing the TripleStore application.

The embedding models the RocksDB engine — an external collaborator whose
internals are out of scope — as a pure total map from column-family name and
key to an optional value, per the documented engine contract (`get_cf`,
`put_cf`, `delete_cf`, atomic `WriteBatch` commit).  Each NIF becomes a
state-passing function on a `Store`.  Elixir terms that cross the NIF
boundary are modelled as `EVal` (atoms and binaries); the host-runtime
marshalling layer itself (list/tuple decoding into `EVal`) is the excluded
bridging layer.  A rustler decode failure inside a NIF body (`NifResult`
error, which the VM turns into an exception) is modelled as `NifOut.raised`.
-/

namespace TripleStore

/-- Keys and values are opaque byte sequences. -/
abbrev Bytes := List Nat

/-- An Elixir value crossing the NIF boundary: an atom or a binary. -/
inductive EVal where
  | atom (s : String)
  | bin (b : Bytes)
deriving DecidableEq

/-- Column family names used by TripleStore (`CF_NAMES` in lib.rs). -/
def CF_NAMES : List String := ["id2str", "str2id", "spo", "pos", "osp", "derived"]

/-- Converts a column family atom to its string name; `None` if the atom is
not a valid column family (`cf_atom_to_name` in lib.rs). -/
def cf_atom_to_name (cf : String) : Option String :=
  if cf = "id2str" then some "id2str"
  else if cf = "str2id" then some "str2id"
  else if cf = "spo" then some "spo"
  else if cf = "pos" then some "pos"
  else if cf = "osp" then some "osp"
  else if cf = "derived" then some "derived"
  else none

/-- The engine state: per column-family name, a map from key to value.
Models the contents of the opened RocksDB instance. -/
abbrev Engine := String → Bytes → Option Bytes

/-- `db.cf_handle(name)`: a store opened by `open` holds exactly the six
fixed column families (created at open time if absent), so the handle lookup
succeeds exactly for names in `CF_NAMES`. -/
def cf_handle (name : String) : Option String :=
  if CF_NAMES.contains name then some name else none

/-- `db.get_cf`. -/
def get_cf (e : Engine) (cf : String) (k : Bytes) : Option Bytes :=
  e cf k

/-- `db.put_cf`: point update of the engine map. -/
def put_cf (e : Engine) (cf : String) (k v : Bytes) : Engine :=
  fun c key => if c = cf then (if key = k then some v else e c key) else e c key

/-- `db.delete_cf`: set-to-absent, whether or not the key was present. -/
def delete_cf (e : Engine) (cf : String) (k : Bytes) : Engine :=
  fun c key => if c = cf then (if key = k then none else e c key) else e c key

/-- One staged operation inside a `WriteBatch`. -/
inductive EngOp where
  | putOp (cf : String) (k v : Bytes)
  | delOp (cf : String) (k : Bytes)
deriving DecidableEq

/-- Applying one staged operation to the engine. -/
def applyEngOp (e : Engine) : EngOp → Engine
  | .putOp cf k v => put_cf e cf k v
  | .delOp cf k => delete_cf e cf k

/-- `db.write(batch)`: atomic commit of a staged batch, in staging order
(last writer to the same family/key wins). -/
def write (e : Engine) (b : List EngOp) : Engine :=
  b.foldl applyEngOp e

/-- The `DbRef` resource: the engine instance (`None` once closed) and the
on-disk path, which is retained after close. -/
structure Store where
  db : Option Engine
  path : String

/-- Successful `open`: a fresh handle in state Open.  The contents found on
disk at the path are abstracted as the initial engine map `e`. -/
def openStore (e : Engine) (path : String) : Store :=
  { db := some e, path := path }

/-- Return terms of the NIFs, as encoded for Elixir. -/
inductive NifTerm where
  | okAtom
  | okVal (v : Bytes)
  | okBool (b : Bool)
  | okPath (p : String)
  | notFound
  | errAlreadyClosed
  | errInvalidCf (cf : String)
  | errInvalidOp
  | errInvalidOpTag (op : String)
deriving DecidableEq

/-- Outcome of a NIF call: an encoded term, or a raised rustler error
(decode failure inside the NIF body). -/
inductive NifOut where
  | term (t : NifTerm)
  | raised (msg : String)
deriving DecidableEq

/-- `close`: exclusive-guard teardown.  Drops the engine on the first call,
reports `already_closed` afterwards. -/
def close (s : Store) : NifOut × Store :=
  match s.db with
  | none => (.term .errAlreadyClosed, s)
  | some _ => (.term .okAtom, { s with db := none })

/-- `is_open`. -/
def is_open (s : Store) : Bool :=
  s.db.isSome

/-- `get_path`. -/
def get_path (s : Store) : NifOut × Store :=
  (.term (.okPath s.path), s)

/-- `list_column_families`. -/
def list_column_families : List String :=
  CF_NAMES

/-- `get`: resolve the family atom, check the store is open, look up the
family handle, then read the key. -/
def get (s : Store) (cf : String) (k : Bytes) : NifOut × Store :=
  match cf_atom_to_name cf with
  | none => (.term (.errInvalidCf cf), s)
  | some name =>
    match s.db with
    | none => (.term .errAlreadyClosed, s)
    | some e =>
      match cf_handle name with
      | none => (.term (.errInvalidCf cf), s)
      | some h =>
        match get_cf e h k with
        | some v => (.term (.okVal v), s)
        | none => (.term .notFound, s)

/-- `put`: same precondition chain as `get`, then a point write. -/
def put (s : Store) (cf : String) (k v : Bytes) : NifOut × Store :=
  match cf_atom_to_name cf with
  | none => (.term (.errInvalidCf cf), s)
  | some name =>
    match s.db with
    | none => (.term .errAlreadyClosed, s)
    | some e =>
      match cf_handle name with
      | none => (.term (.errInvalidCf cf), s)
      | some h => (.term .okAtom, { s with db := some (put_cf e h k v) })

/-- `delete`: same precondition chain, then a point delete (succeeds even
when the key is absent). -/
def delete (s : Store) (cf : String) (k : Bytes) : NifOut × Store :=
  match cf_atom_to_name cf with
  | none => (.term (.errInvalidCf cf), s)
  | some name =>
    match s.db with
    | none => (.term .errAlreadyClosed, s)
    | some e =>
      match cf_handle name with
      | none => (.term (.errInvalidCf cf), s)
      | some h => (.term .okAtom, { s with db := some (delete_cf e h k) })

/-- `exists`: same precondition chain, presence check via `get_cf`. -/
def keyExists (s : Store) (cf : String) (k : Bytes) : NifOut × Store :=
  match cf_atom_to_name cf with
  | none => (.term (.errInvalidCf cf), s)
  | some name =>
    match s.db with
    | none => (.term .errAlreadyClosed, s)
    | some e =>
      match cf_handle name with
      | none => (.term (.errInvalidCf cf), s)
      | some h =>
        match get_cf e h k with
        | some _ => (.term (.okBool true), s)
        | none => (.term (.okBool false), s)

/-- Abort reason while building a batch: an error term returned to the
caller, or a raised rustler decode error. -/
inductive LoopErr where
  | errTerm (t : NifTerm)
  | raise (msg : String)
deriving DecidableEq

/-- `tuple[i].decode::<Atom>()` with its call-site error message. -/
def decodeAtomE (msg : String) : EVal → Except LoopErr String
  | .atom a => .ok a
  | .bin _ => .error (.raise msg)

/-- `tuple[i].decode::<Binary>()` with its call-site error message. -/
def decodeBinE (msg : String) : EVal → Except LoopErr Bytes
  | .bin b => .ok b
  | .atom _ => .error (.raise msg)

/-- Family resolution inside a batch loop: atom lookup then handle lookup,
each failure returning `{:error, {:invalid_cf, cf}}`. -/
def resolve_cf (cf : String) : Except LoopErr String :=
  match cf_atom_to_name cf with
  | none => .error (.errTerm (.errInvalidCf cf))
  | some name =>
    match cf_handle name with
    | none => .error (.errTerm (.errInvalidCf cf))
    | some h => .ok h

/-- One iteration of the `write_batch` loop: a 3-tuple `{cf, key, value}` is
a put; a 4-tuple `{op, cf, key, value}` is decoded fully, rejected with
`{:invalid_operation, op}` unless `op == :put`; any other arity is a bare
`:invalid_operation`. -/
def write_batch_item : List EVal → Except LoopErr EngOp
  | [c, kv, vv] =>
    match decodeAtomE "expected atom for cf" c with
    | .error e => .error e
    | .ok cf =>
      match decodeBinE "expected binary for key" kv with
      | .error e => .error e
      | .ok k =>
        match decodeBinE "expected binary for value" vv with
        | .error e => .error e
        | .ok v =>
          match resolve_cf cf with
          | .error e => .error e
          | .ok h => .ok (.putOp h k v)
  | [ov, c, kv, vv] =>
    match decodeAtomE "expected atom for operation" ov with
    | .error e => .error e
    | .ok op =>
      match decodeAtomE "expected atom for cf" c with
      | .error e => .error e
      | .ok cf =>
        match decodeBinE "expected binary for key" kv with
        | .error e => .error e
        | .ok k =>
          match decodeBinE "expected binary for value" vv with
          | .error e => .error e
          | .ok v =>
            if op = "put" then
              match resolve_cf cf with
              | .error e => .error e
              | .ok h => .ok (.putOp h k v)
            else
              .error (.errTerm (.errInvalidOpTag op))
  | _ => .error (.errTerm .errInvalidOp)

/-- One iteration of the `delete_batch` loop: only 2-tuples `{cf, key}`. -/
def delete_batch_item : List EVal → Except LoopErr EngOp
  | [c, kv] =>
    match decodeAtomE "expected atom for cf" c with
    | .error e => .error e
    | .ok cf =>
      match decodeBinE "expected binary for key" kv with
      | .error e => .error e
      | .ok k =>
        match resolve_cf cf with
        | .error e => .error e
        | .ok h => .ok (.delOp h k)
  | _ => .error (.errTerm .errInvalidOp)

/-- One iteration of the `mixed_batch` loop: nonempty tuple whose head atom
selects `{:put, cf, key, value}` or `{:delete, cf, key}`; any other tag is
`{:invalid_operation, op}`, any wrong arity a bare `:invalid_operation`. -/
def mixed_batch_item : List EVal → Except LoopErr EngOp
  | [] => .error (.errTerm .errInvalidOp)
  | hd :: rest =>
    match decodeAtomE "expected atom for operation" hd with
    | .error e => .error e
    | .ok op =>
      if op = "put" then
        match rest with
        | [c, kv, vv] =>
          match decodeAtomE "expected atom for cf" c with
          | .error e => .error e
          | .ok cf =>
            match decodeBinE "expected binary for key" kv with
            | .error e => .error e
            | .ok k =>
              match decodeBinE "expected binary for value" vv with
              | .error e => .error e
              | .ok v =>
                match resolve_cf cf with
                | .error e => .error e
                | .ok h => .ok (.putOp h k v)
        | _ => .error (.errTerm .errInvalidOp)
      else if op = "delete" then
        match rest with
        | [c, kv] =>
          match decodeAtomE "expected atom for cf" c with
          | .error e => .error e
          | .ok cf =>
            match decodeBinE "expected binary for key" kv with
            | .error e => .error e
            | .ok k =>
              match resolve_cf cf with
              | .error e => .error e
              | .ok h => .ok (.delOp h k)
        | _ => .error (.errTerm .errInvalidOp)
      else
        .error (.errTerm (.errInvalidOpTag op))

/-- The batch-building loop: stage each item in order, aborting on the first
invalid one without touching the engine. -/
def build_batch (f : List EVal → Except LoopErr EngOp) :
    List (List EVal) → Except LoopErr (List EngOp)
  | [] => .ok []
  | item :: rest =>
    match f item with
    | .error e => .error e
    | .ok o =>
      match build_batch f rest with
      | .error e => .error e
      | .ok b => .ok (o :: b)

/-- The tail of a batch NIF: an aborted construction returns its error with
the store untouched; a fully staged batch is committed atomically with
`write`. -/
def commit_batch (s : Store) (e : Engine) (r : Except LoopErr (List EngOp)) :
    NifOut × Store :=
  match r with
  | .error (.errTerm t) => (.term t, s)
  | .error (.raise m) => (.raised m, s)
  | .ok b => (.term .okAtom, { s with db := some (write e b) })

/-- The shared skeleton of the three batch NIFs: check the store is open,
build the staged batch from the operation list, and only then commit it
atomically. -/
def run_batch (f : List EVal → Except LoopErr EngOp) (s : Store)
    (ops : List (List EVal)) : NifOut × Store :=
  match s.db with
  | none => (.term .errAlreadyClosed, s)
  | some e => commit_batch s e (build_batch f ops)

/-- `write_batch`. -/
def write_batch (s : Store) (ops : List (List EVal)) : NifOut × Store :=
  run_batch write_batch_item s ops

/-- `delete_batch`. -/
def delete_batch (s : Store) (ops : List (List EVal)) : NifOut × Store :=
  run_batch delete_batch_item s ops

/-- `mixed_batch`. -/
def mixed_batch (s : Store) (ops : List (List EVal)) : NifOut × Store :=
  run_batch mixed_batch_item s ops

/-- The `{cf, key, value}` surface shape of a put. -/
def putTriple (cf : String) (k v : Bytes) : List EVal :=
  [.atom cf, .bin k, .bin v]

/-- The `{:put, cf, key, value}` surface shape of a put. -/
def putTagged (cf : String) (k v : Bytes) : List EVal :=
  [.atom "put", .atom cf, .bin k, .bin v]

/-- The `{cf, key}` surface shape of a delete. -/
def delPair (cf : String) (k : Bytes) : List EVal :=
  [.atom cf, .bin k]

/-- The `{:delete, cf, key}` surface shape of a delete. -/
def delTagged (cf : String) (k : Bytes) : List EVal :=
  [.atom "delete", .atom cf, .bin k]

/-- The whole NIF interface, for statements quantifying over arbitrary
operation sequences. -/
inductive AnyOp where
  | opGet (cf : String) (k : Bytes)
  | opPut (cf : String) (k v : Bytes)
  | opDelete (cf : String) (k : Bytes)
  | opExists (cf : String) (k : Bytes)
  | opClose
  | opGetPath
  | opWriteBatch (ops : List (List EVal))
  | opDeleteBatch (ops : List (List EVal))
  | opMixedBatch (ops : List (List EVal))

/-- Run one interface operation against the store. -/
def runOp (s : Store) : AnyOp → NifOut × Store
  | .opGet cf k => get s cf k
  | .opPut cf k v => put s cf k v
  | .opDelete cf k => delete s cf k
  | .opExists cf k => keyExists s cf k
  | .opClose => close s
  | .opGetPath => get_path s
  | .opWriteBatch ops => write_batch s ops
  | .opDeleteBatch ops => delete_batch s ops
  | .opMixedBatch ops => mixed_batch s ops

/-- Run a sequence of interface operations, threading the store state. -/
def runOps (s : Store) (l : List AnyOp) : Store :=
  l.foldl (fun st o => (runOp st o).2) s

/-- The empty engine map, for concrete instances. -/
def emptyEngine : Engine :=
  fun _ _ => none

/-- A concrete open store. -/
def store1 : Store :=
  openStore emptyEngine "/tmp/s"

/-- A concrete closed store. -/
def store0 : Store :=
  { db := none, path := "/tmp/s" }

/-! ## Helper lemmas -/

/-- A name produced by `cf_atom_to_name` is one of the six provisioned
families, so its handle lookup succeeds. -/
theorem cf_handle_valid (cf name : String) (h : cf_atom_to_name cf = some name) :
    cf_handle name = some name := by
  unfold cf_atom_to_name at h
  split_ifs at h <;> first
    | exact Option.noConfusion h
    | (injection h with h2; subst h2; decide)

/-- Batch-loop family resolution succeeds on a valid family atom. -/
theorem resolve_cf_valid (cf name : String) (h : cf_atom_to_name cf = some name) :
    resolve_cf cf = .ok name := by
  simp only [resolve_cf, h, cf_handle_valid cf name h]

/-- Batch-loop family resolution fails on an unknown family atom. -/
theorem resolve_cf_none (cf : String) (h : cf_atom_to_name cf = none) :
    resolve_cf cf = .error (.errTerm (.errInvalidCf cf)) := by
  simp only [resolve_cf, h]

/-- On an open store, a batch NIF builds the staged batch and commits it. -/
theorem run_batch_open (f : List EVal → Except LoopErr EngOp) (s : Store)
    (e : Engine) (hopen : s.db = some e) (ops : List (List EVal)) :
    run_batch f s ops = commit_batch s e (build_batch f ops) := by
  obtain ⟨db, p⟩ := s
  obtain rfl : db = some e := hopen
  rfl

/-- On a closed store, every batch NIF reports `already_closed`. -/
theorem run_batch_closed (f : List EVal → Except LoopErr EngOp) (s : Store)
    (hclosed : s.db = none) (ops : List (List EVal)) :
    run_batch f s ops = (.term .errAlreadyClosed, s) := by
  obtain ⟨db, p⟩ := s
  obtain rfl : db = (none : Option Engine) := hclosed
  rfl

/-- Staging aborts with the error of the first invalid item. -/
theorem build_batch_first_error (f : List EVal → Except LoopErr EngOp)
    (pre rest : List (List EVal)) (bad : List EVal) (err : LoopErr)
    (hpre : ∀ it ∈ pre, ∃ o, f it = .ok o) (hbad : f bad = .error err) :
    build_batch f (pre ++ bad :: rest) = .error err := by
  induction pre with
  | nil => simp only [List.nil_append, build_batch, hbad]
  | cons a t ih =>
    obtain ⟨o, ho⟩ := hpre a (List.mem_cons_self a t)
    have ih2 := ih fun it hit => hpre it (List.mem_cons_of_mem a hit)
    simp only [List.cons_append, build_batch, ho, List.append_eq, ih2]

/-- A batch whose first invalid item yields error term `t` returns `t` and
leaves the store untouched: the commit primitive is never invoked. -/
theorem run_batch_first_error (f : List EVal → Except LoopErr EngOp)
    (s : Store) (e : Engine) (hopen : s.db = some e)
    (pre rest : List (List EVal)) (bad : List EVal) (t : NifTerm)
    (hpre : ∀ it ∈ pre, ∃ o, f it = .ok o)
    (hbad : f bad = .error (.errTerm t)) :
    run_batch f s (pre ++ bad :: rest) = (.term t, s) := by
  rw [run_batch_open f s e hopen,
    build_batch_first_error f pre rest bad _ hpre hbad]
  rfl

/-! ## Claim theorems -/

/-- C3: on an open store, `put` on a valid family returns `:ok`, and a `get`
of the same family and key performed on the resulting state returns exactly
the written value, overwriting whatever value (if any) the engine previously
held for that key. -/
theorem put_then_get (s : Store) (e : Engine) (cf name : String) (k v : Bytes)
    (hopen : s.db = some e) (hcf : cf_atom_to_name cf = some name) :
    (put s cf k v).1 = .term .okAtom ∧
    (get (put s cf k v).2 cf k).1 = .term (.okVal v) := by
  have hh := cf_handle_valid cf name hcf
  constructor
  · simp only [put, hcf, hopen, hh]
  · simp [put, get, hcf, hopen, hh, get_cf, put_cf]

/-- Witness for C3 at a concrete store, family, key and value. -/
theorem put_then_get_w :
    (put store1 "spo" [1] [2]).1 = .term .okAtom ∧
    (get (put store1 "spo" [1] [2]).2 "spo" [1]).1 = .term (.okVal [2]) :=
  put_then_get store1 emptyEngine "spo" "spo" [1] [2] rfl (by decide)

/-- C4: on an open store, `delete` on a valid family returns `:ok` whether or
not the key is present, and a `get` of the same family and key on the
resulting state returns `:not_found`, regardless of prior presence. -/
theorem delete_then_get (s : Store) (e : Engine) (cf name : String) (k : Bytes)
    (hopen : s.db = some e) (hcf : cf_atom_to_name cf = some name) :
    (delete s cf k).1 = .term .okAtom ∧
    (get (delete s cf k).2 cf k).1 = .term .notFound := by
  have hh := cf_handle_valid cf name hcf
  constructor
  · simp only [delete, hcf, hopen, hh]
  · simp [delete, get, hcf, hopen, hh, get_cf, delete_cf]

/-- Witness for C4 at a concrete store holding the key beforehand. -/
theorem delete_then_get_w :
    (delete { db := some (put_cf emptyEngine "spo" [1] [2]), path := "/tmp/s" } "spo" [1]).1
      = .term .okAtom ∧
    (get (delete { db := some (put_cf emptyEngine "spo" [1] [2]), path := "/tmp/s" } "spo" [1]).2
      "spo" [1]).1 = .term .notFound :=
  delete_then_get { db := some (put_cf emptyEngine "spo" [1] [2]), path := "/tmp/s" }
    (put_cf emptyEngine "spo" [1] [2]) "spo" "spo" [1] rfl (by decide)

/-- C5: in every store state and for every family atom and key, `exists`
reports `{:ok, true}` exactly when `get` finds a value and `{:ok, false}`
exactly when `get` reports `:not_found`; in particular a deleted key reports
`false`. -/
theorem exists_agrees_get (s : Store) (cf : String) (k : Bytes) :
    ((keyExists s cf k).1 = .term (.okBool true) ↔
      ∃ v, (get s cf k).1 = .term (.okVal v)) ∧
    ((keyExists s cf k).1 = .term (.okBool false) ↔
      (get s cf k).1 = .term .notFound) := by
  unfold keyExists get
  rcases hc : cf_atom_to_name cf with _ | name <;> simp only [hc]
  · simp
  · rcases hdb : s.db with _ | e <;> simp only [hdb]
    · simp
    · rcases hh : cf_handle name with _ | h <;> simp only [hh]
      · simp
      · rcases hv : get_cf e h k with _ | v <;> simp only [hv] <;> simp

/-- C7: closing an open store returns `:ok` and drops the engine; a second
`close` returns `:already_closed` and changes nothing; and every
engine-touching operation on the closed store — the four point operations on
any valid family, and the three batch NIFs on any operation list — reports
`:already_closed`. -/
theorem close_lifecycle (e : Engine) (p : String) :
    close (openStore e p) = (.term .okAtom, { db := none, path := p }) ∧
    close { db := none, path := p } =
      (.term .errAlreadyClosed, { db := none, path := p }) ∧
    (∀ cf name k, cf_atom_to_name cf = some name →
      (get { db := none, path := p } cf k).1 = .term .errAlreadyClosed) ∧
    (∀ cf name k v, cf_atom_to_name cf = some name →
      (put { db := none, path := p } cf k v).1 = .term .errAlreadyClosed) ∧
    (∀ cf name k, cf_atom_to_name cf = some name →
      (delete { db := none, path := p } cf k).1 = .term .errAlreadyClosed) ∧
    (∀ cf name k, cf_atom_to_name cf = some name →
      (keyExists { db := none, path := p } cf k).1 = .term .errAlreadyClosed) ∧
    (∀ ops, (write_batch { db := none, path := p } ops).1 = .term .errAlreadyClosed) ∧
    (∀ ops, (delete_batch { db := none, path := p } ops).1 = .term .errAlreadyClosed) ∧
    (∀ ops, (mixed_batch { db := none, path := p } ops).1 = .term .errAlreadyClosed) := by
  refine ⟨rfl, rfl, ?_, ?_, ?_, ?_, fun ops => rfl, fun ops => rfl, fun ops => rfl⟩
  · intro cf name k hcf
    simp only [get, hcf]
  · intro cf name k v hcf
    simp only [put, hcf]
  · intro cf name k hcf
    simp only [delete, hcf]
  · intro cf name k hcf
    simp only [keyExists, hcf]

/-- Witness for C7 at a concrete engine, path, family and key. -/
theorem close_lifecycle_w :
    close (openStore emptyEngine "/tmp/s") = (.term .okAtom, store0) ∧
    close store0 = (.term .errAlreadyClosed, store0) ∧
    (get store0 "spo" [0]).1 = .term .errAlreadyClosed ∧
    (write_batch store0 [putTriple "spo" [0] [1]]).1 = .term .errAlreadyClosed := by
  have h := close_lifecycle emptyEngine "/tmp/s"
  exact ⟨h.1, h.2.1, h.2.2.1 "spo" "spo" [0] (by decide),
    h.2.2.2.2.2.2.1 [putTriple "spo" [0] [1]]⟩

/-- C9: on an open store, `write_batch` on the empty operation list commits
trivially, returns `:ok`, and leaves the store state unchanged, so every
subsequent `get` returns the same result as before the call. -/
theorem write_batch_empty (s : Store) (e : Engine) (hopen : s.db = some e) :
    write_batch s [] = (.term .okAtom, s) ∧
    ∀ cf k, get (write_batch s []).2 cf k = get s cf k := by
  have h1 : write_batch s [] = (.term .okAtom, s) := by
    obtain ⟨db, p⟩ := s
    obtain rfl : db = some e := hopen
    rfl
  exact ⟨h1, fun cf k => by rw [h1]⟩

/-- Witness for C9 at a concrete open store. -/
theorem write_batch_empty_w :
    write_batch store1 [] = (.term .okAtom, store1) ∧
    get (write_batch store1 []).2 "spo" [0] = get store1 "spo" [0] := by
  have h := write_batch_empty store1 emptyEngine rfl
  exact ⟨h.1, h.2 "spo" [0]⟩

/-- A 3-tuple put naming an unknown family aborts the `write_batch` loop
with `{:invalid_cf, cf}`. -/
theorem write_batch_item_bad_cf (cf : String) (k v : Bytes)
    (hcf : cf_atom_to_name cf = none) :
    write_batch_item (putTriple cf k v) = .error (.errTerm (.errInvalidCf cf)) := by
  simp only [putTriple, write_batch_item, decodeAtomE, decodeBinE,
    resolve_cf_none cf hcf]

/-- A 2-tuple delete naming an unknown family aborts the `delete_batch` loop
with `{:invalid_cf, cf}`. -/
theorem delete_batch_item_bad_cf (cf : String) (k : Bytes)
    (hcf : cf_atom_to_name cf = none) :
    delete_batch_item (delPair cf k) = .error (.errTerm (.errInvalidCf cf)) := by
  simp only [delPair, delete_batch_item, decodeAtomE, decodeBinE,
    resolve_cf_none cf hcf]

/-- A tagged put naming an unknown family aborts the `mixed_batch` loop with
`{:invalid_cf, cf}`. -/
theorem mixed_batch_item_bad_cf (cf : String) (k v : Bytes)
    (hcf : cf_atom_to_name cf = none) :
    mixed_batch_item (putTagged cf k v) = .error (.errTerm (.errInvalidCf cf)) := by
  simp [putTagged, mixed_batch_item, decodeAtomE, decodeBinE,
    resolve_cf_none cf hcf]

/-- C1: on an open store, each of the three batch NIFs, given a list whose
prefix stages successfully and whose next item is invalid (unresolvable
family or malformed shape, producing error term `t`), returns exactly `t`
and leaves the store untouched — the commit primitive is never invoked, so
no operation of the batch, earlier valid ones included, becomes visible. -/
theorem batch_first_error_atomic (s : Store) (e : Engine) (hopen : s.db = some e) :
    (∀ pre rest bad t, (∀ it ∈ pre, ∃ o, write_batch_item it = .ok o) →
      write_batch_item bad = .error (.errTerm t) →
      write_batch s (pre ++ bad :: rest) = (.term t, s)) ∧
    (∀ pre rest bad t, (∀ it ∈ pre, ∃ o, delete_batch_item it = .ok o) →
      delete_batch_item bad = .error (.errTerm t) →
      delete_batch s (pre ++ bad :: rest) = (.term t, s)) ∧
    (∀ pre rest bad t, (∀ it ∈ pre, ∃ o, mixed_batch_item it = .ok o) →
      mixed_batch_item bad = .error (.errTerm t) →
      mixed_batch s (pre ++ bad :: rest) = (.term t, s)) :=
  ⟨fun pre rest bad t hpre hbad =>
    run_batch_first_error write_batch_item s e hopen pre rest bad t hpre hbad,
   fun pre rest bad t hpre hbad =>
    run_batch_first_error delete_batch_item s e hopen pre rest bad t hpre hbad,
   fun pre rest bad t hpre hbad =>
    run_batch_first_error mixed_batch_item s e hopen pre rest bad t hpre hbad⟩

/-- Witness for C1: a batch with one valid put followed by a put naming the
unknown family `bogus` returns `{:invalid_cf, :bogus}` with the store
unchanged. -/
theorem batch_first_error_atomic_w :
    write_batch store1 [putTriple "spo" [1] [2], putTriple "bogus" [3] [4]] =
      (.term (.errInvalidCf "bogus"), store1) := by
  have h := (batch_first_error_atomic store1 emptyEngine rfl).1
    [putTriple "spo" [1] [2]] [] (putTriple "bogus" [3] [4]) (.errInvalidCf "bogus")
    (by
      intro it hit
      rw [List.mem_singleton] at hit
      subst hit
      exact ⟨.putOp "spo" [1] [2], rfl⟩)
    rfl
  exact h

/-- C2 counterexample: on a Closed store, a batch operation naming the
unknown family `bogus` returns `:already_closed`, not `{:invalid_cf,
:bogus}` — so fixed-set enforcement is not independent of store state for
the batch entry points. -/
theorem invalid_cf_closed_counterexample :
    (write_batch store0 [putTriple "bogus" [0] [0]]).1 = .term .errAlreadyClosed ∧
    (write_batch store0 [putTriple "bogus" [0] [0]]).1 ≠
      .term (.errInvalidCf "bogus") := by
  constructor
  · rfl
  · decide

/-- C2 amended: every point operation given a family atom outside the fixed
set returns `{:invalid_cf, cf}` carrying that atom, whatever the store
state; the batch entry points do so when the store is Open (here with the
offending operation reached first), but on a Closed store they return
`:already_closed` before examining any operation. -/
theorem invalid_cf_enforcement (cf : String) (hcf : cf_atom_to_name cf = none) :
    (∀ s k, (get s cf k).1 = .term (.errInvalidCf cf)) ∧
    (∀ s k v, (put s cf k v).1 = .term (.errInvalidCf cf)) ∧
    (∀ s k, (delete s cf k).1 = .term (.errInvalidCf cf)) ∧
    (∀ s k, (keyExists s cf k).1 = .term (.errInvalidCf cf)) ∧
    (∀ s e k v rest, s.db = some e →
      (write_batch s (putTriple cf k v :: rest)).1 = .term (.errInvalidCf cf)) ∧
    (∀ s e k rest, s.db = some e →
      (delete_batch s (delPair cf k :: rest)).1 = .term (.errInvalidCf cf)) ∧
    (∀ s e k v rest, s.db = some e →
      (mixed_batch s (putTagged cf k v :: rest)).1 = .term (.errInvalidCf cf)) ∧
    (∀ s ops, s.db = none → (write_batch s ops).1 = .term .errAlreadyClosed) ∧
    (∀ s ops, s.db = none → (delete_batch s ops).1 = .term .errAlreadyClosed) ∧
    (∀ s ops, s.db = none → (mixed_batch s ops).1 = .term .errAlreadyClosed) := by
  refine ⟨fun s k => by simp only [get, hcf], fun s k v => by simp only [put, hcf],
    fun s k => by simp only [delete, hcf], fun s k => by simp only [keyExists, hcf],
    ?_, ?_, ?_,
    fun s ops h => by rw [write_batch, run_batch_closed write_batch_item s h ops],
    fun s ops h => by rw [delete_batch, run_batch_closed delete_batch_item s h ops],
    fun s ops h => by rw [mixed_batch, run_batch_closed mixed_batch_item s h ops]⟩
  · intro s e k v rest hopen
    rw [show putTriple cf k v :: rest = [] ++ putTriple cf k v :: rest from rfl,
      write_batch, run_batch_first_error write_batch_item s e hopen [] rest _ _
        (fun it hit => absurd hit (List.not_mem_nil it))
        (write_batch_item_bad_cf cf k v hcf)]
  · intro s e k rest hopen
    rw [show delPair cf k :: rest = [] ++ delPair cf k :: rest from rfl,
      delete_batch, run_batch_first_error delete_batch_item s e hopen [] rest _ _
        (fun it hit => absurd hit (List.not_mem_nil it))
        (delete_batch_item_bad_cf cf k hcf)]
  · intro s e k v rest hopen
    rw [show putTagged cf k v :: rest = [] ++ putTagged cf k v :: rest from rfl,
      mixed_batch, run_batch_first_error mixed_batch_item s e hopen [] rest _ _
        (fun it hit => absurd hit (List.not_mem_nil it))
        (mixed_batch_item_bad_cf cf k v hcf)]

/-- Witness for the amended C2 claim at concrete stores and inputs. -/
theorem invalid_cf_enforcement_w :
    (get store0 "bogus" [0]).1 = .term (.errInvalidCf "bogus") ∧
    (get store1 "bogus" [0]).1 = .term (.errInvalidCf "bogus") ∧
    (write_batch store1 [putTriple "bogus" [0] [1]]).1 =
      .term (.errInvalidCf "bogus") ∧
    (write_batch store0 [putTriple "bogus" [0] [1]]).1 = .term .errAlreadyClosed := by
  have h := invalid_cf_enforcement "bogus" (by decide)
  exact ⟨h.1 store0 [0], h.1 store1 [0],
    h.2.2.2.2.1 store1 emptyEngine [0] [1] [] rfl,
    h.2.2.2.2.2.2.2.1 store0 [putTriple "bogus" [0] [1]] rfl⟩

/-- The two put surface shapes stage identically. -/
theorem put_items_eq (cf : String) (k v : Bytes) :
    write_batch_item (putTriple cf k v) = mixed_batch_item (putTagged cf k v) := rfl

/-- The two delete surface shapes stage identically. -/
theorem del_items_eq (cf : String) (k : Bytes) :
    delete_batch_item (delPair cf k) = mixed_batch_item (delTagged cf k) := rfl

/-- Staging a put-only list through the `write_batch` loop equals staging the
corresponding tagged list through the `mixed_batch` loop. -/
theorem build_put_shapes (l : List (String × Bytes × Bytes)) :
    build_batch write_batch_item (l.map fun x => putTriple x.1 x.2.1 x.2.2) =
    build_batch mixed_batch_item (l.map fun x => putTagged x.1 x.2.1 x.2.2) := by
  induction l with
  | nil => rfl
  | cons a t ih => simp only [List.map_cons, build_batch, put_items_eq, ih]

/-- Staging a delete-only list through the `delete_batch` loop equals staging
the corresponding tagged list through the `mixed_batch` loop. -/
theorem build_del_shapes (l : List (String × Bytes)) :
    build_batch delete_batch_item (l.map fun x => delPair x.1 x.2) =
    build_batch mixed_batch_item (l.map fun x => delTagged x.1 x.2) := by
  induction l with
  | nil => rfl
  | cons a t ih => simp only [List.map_cons, build_batch, del_items_eq, ih]

/-- The outcome of a batch NIF depends on its inputs only through the staged
batch. -/
theorem run_batch_ext (f g : List EVal → Except LoopErr EngOp) (s : Store)
    (l1 l2 : List (List EVal)) (h : build_batch f l1 = build_batch g l2) :
    run_batch f s l1 = run_batch g s l2 := by
  unfold run_batch
  rw [h]

/-- C6: on every store, `write_batch` on a list of 3-tuple puts returns the
same result and the same resulting state as `mixed_batch` on the
corresponding tagged put list, and `delete_batch` on a list of 2-tuple
deletes likewise agrees with `mixed_batch` on the corresponding tagged
delete list — the three entry points reduce to one staged operation
sequence committed identically. -/
theorem batch_shapes_equivalent (s : Store) :
    (∀ l : List (String × Bytes × Bytes),
      write_batch s (l.map fun x => putTriple x.1 x.2.1 x.2.2) =
      mixed_batch s (l.map fun x => putTagged x.1 x.2.1 x.2.2)) ∧
    (∀ l : List (String × Bytes),
      delete_batch s (l.map fun x => delPair x.1 x.2) =
      mixed_batch s (l.map fun x => delTagged x.1 x.2)) :=
  ⟨fun l => run_batch_ext write_batch_item mixed_batch_item s _ _ (build_put_shapes l),
   fun l => run_batch_ext delete_batch_item mixed_batch_item s _ _ (build_del_shapes l)⟩

/-- On a closed store, no interface operation changes the state at all. -/
theorem runOp_closed (s : Store) (h : s.db = none) (o : AnyOp) :
    (runOp s o).2 = s := by
  obtain ⟨db, p⟩ := s
  obtain rfl : db = (none : Option Engine) := h
  cases o with
  | opGet cf k =>
    rcases hc : cf_atom_to_name cf with _ | name <;> simp [runOp, get, hc]
  | opPut cf k v =>
    rcases hc : cf_atom_to_name cf with _ | name <;> simp [runOp, put, hc]
  | opDelete cf k =>
    rcases hc : cf_atom_to_name cf with _ | name <;> simp [runOp, delete, hc]
  | opExists cf k =>
    rcases hc : cf_atom_to_name cf with _ | name <;> simp [runOp, keyExists, hc]
  | opClose => rfl
  | opGetPath => rfl
  | opWriteBatch ops => rfl
  | opDeleteBatch ops => rfl
  | opMixedBatch ops => rfl

/-- On a closed store, no sequence of interface operations changes the
state. -/
theorem runOps_closed (s : Store) (h : s.db = none) (l : List AnyOp) :
    runOps s l = s := by
  induction l with
  | nil => rfl
  | cons o t ih =>
    show runOps (runOp s o).2 t = s
    rw [runOp_closed s h o, ih]

/-- C8: once the state of a store is Closed it remains Closed under every
sequence of interface operations — none transitions it back to Open, so
`is_open` never reports `true` after having reported `false`. -/
theorem closed_stays_closed (s : Store) (l : List AnyOp)
    (h : is_open s = false) :
    is_open (runOps s l) = false ∧ (runOps s l).db = none := by
  rcases hdb : s.db with _ | e
  · rw [runOps_closed s hdb l]
    exact ⟨h, hdb⟩
  · exfalso
    unfold is_open at h
    rw [hdb] at h
    simp at h

/-- Witness for C8: a closed store stays closed across a put, a close, and a
batch. -/
theorem closed_stays_closed_w :
    is_open (runOps store0
      [.opPut "spo" [1] [2], .opClose, .opWriteBatch [putTriple "spo" [1] [2]]])
      = false ∧
    (runOps store0
      [.opPut "spo" [1] [2], .opClose, .opWriteBatch [putTriple "spo" [1] [2]]]).db
      = none :=
  closed_stays_closed store0
    [.opPut "spo" [1] [2], .opClose, .opWriteBatch [putTriple "spo" [1] [2]]] rfl

/-- Anything the `write_batch` loop stages successfully is a put. -/
theorem write_batch_item_put (it : List EVal) (o : EngOp)
    (h : write_batch_item it = .ok o) : ∃ n k v, o = .putOp n k v := by
  unfold write_batch_item at h
  repeat' split at h
  all_goals first
    | exact Except.noConfusion h
    | (injection h with h2; subst h2; exact ⟨_, _, _, rfl⟩)

/-- Every batch the `write_batch` loop stages in full consists of puts
only. -/
theorem build_put_only (ops : List (List EVal)) (b : List EngOp)
    (h : build_batch write_batch_item ops = .ok b) :
    ∀ o ∈ b, ∃ n k v, o = .putOp n k v := by
  induction ops generalizing b with
  | nil =>
    injection h with h2
    subst h2
    intro o ho
    exact absurd ho (List.not_mem_nil o)
  | cons a t ih =>
    simp only [build_batch] at h
    rcases hfa : write_batch_item a with e1 | o1 <;> rw [hfa] at h
    · exact Except.noConfusion h
    · rcases hbt : build_batch write_batch_item t with e2 | b2 <;> rw [hbt] at h
      · exact Except.noConfusion h
      · injection h with h2
        subst h2
        intro o ho
        rcases List.mem_cons.mp ho with rfl | hmem
        · exact write_batch_item_put a o hfa
        · exact ih b2 hbt o hmem

/-- C10: `write_batch` interprets every 3-element tuple `{cf, key, value}`
naming a valid family as a put; a 4-element tuple whose leading tag is not
`:put` aborts the whole batch with `{:invalid_operation, tag}` and leaves
the store untouched; and every batch it stages in full consists of puts
only, so no input to `write_batch` can express a delete. -/
theorem write_batch_put_only (s : Store) (e : Engine) (hopen : s.db = some e) :
    (∀ cf name k v, cf_atom_to_name cf = some name →
      write_batch_item (putTriple cf k v) = .ok (.putOp name k v)) ∧
    (∀ pre rest op cf k v, op ≠ "put" →
      (∀ it ∈ pre, ∃ o, write_batch_item it = .ok o) →
      write_batch s
        (pre ++ [EVal.atom op, EVal.atom cf, EVal.bin k, EVal.bin v] :: rest) =
        (.term (.errInvalidOpTag op), s)) ∧
    (∀ ops b, build_batch write_batch_item ops = .ok b →
      ∀ o ∈ b, ∃ n k v, o = .putOp n k v) := by
  refine ⟨?_, ?_, fun ops b h => build_put_only ops b h⟩
  · intro cf name k v hcf
    simp only [putTriple, write_batch_item, decodeAtomE, decodeBinE,
      resolve_cf_valid cf name hcf]
  · intro pre rest op cf k v hop hpre
    have hbad : write_batch_item [EVal.atom op, EVal.atom cf, EVal.bin k, EVal.bin v] =
        .error (.errTerm (.errInvalidOpTag op)) := by
      simp only [write_batch_item, decodeAtomE, decodeBinE, if_neg hop]
    exact run_batch_first_error write_batch_item s e hopen pre rest _ _ hpre hbad

/-- Witness for C10: a valid 3-tuple stages as a put, and a `:delete`-tagged
4-tuple aborts `write_batch` with its tag. -/
theorem write_batch_put_only_w :
    write_batch_item (putTriple "spo" [1] [2]) = .ok (.putOp "spo" [1] [2]) ∧
    write_batch store1
      [[EVal.atom "delete", EVal.atom "spo", EVal.bin [1], EVal.bin [2]]] =
      (.term (.errInvalidOpTag "delete"), store1) := by
  have h := write_batch_put_only store1 emptyEngine rfl
  refine ⟨h.1 "spo" "spo" [1] [2] (by decide), ?_⟩
  have h2 := h.2.1 [] [] "delete" "spo" [1] [2] (by decide)
    (fun it hit => absurd hit (List.not_mem_nil it))
  exact h2

end TripleStore
